import Mathlib

/-!
A shallow embedding of the segment-result aggregator and the ordered
transcript store of the voiceapi repository.

The transcript store (`src/backend/db.py`, class `DatabaseManager`) is
modelled as a pure functional state: the `transcripts` table is a list of
rows, the SERIAL primary key is an explicit `next_segment_id` counter, and
every operation that runs inside a database transaction is a function
`Store → Except String (Store × α)`: a `.ok` result carries the committed
store, a `.error` result models the raised exception together with the
transaction rollback (the input store is kept unchanged by the caller).
SQL `FLOAT`, `TIMESTAMP` and `INTERVAL` values are embedded as exact
rationals; `TEXT` content is a list of characters so that Python slicing
`s[:p]` / `s[p:]` becomes `List.take` / `List.drop` (both clamp at the
length, as Python slices do for non-negative positions).

The accumulator and dispatcher (`src/backend/app.py`, `websocket_asr`) are
modelled with dynamic Python dictionaries (`List (String × PyVal)`), since
the behaviour under scrutiny depends on dictionary keys being added and
deleted at run time; a missing key is a `KeyError`, surfaced through
`Except`.
-/

namespace VoiceApi

/-- Decidable equality of `Except` results, so that concrete runs can be
checked by `decide`. -/
instance {e : Type u} {a : Type v} [DecidableEq e] [DecidableEq a] :
    DecidableEq (Except e a) := fun x y =>
  match x, y with
  | .error u, .error v =>
    if h : u = v then isTrue (congrArg Except.error h)
    else isFalse (fun hc => h (Except.error.inj hc))
  | .error _, .ok _ => isFalse (fun hc => Except.noConfusion hc)
  | .ok _, .error _ => isFalse (fun hc => Except.noConfusion hc)
  | .ok u, .ok v =>
    if h : u = v then isTrue (congrArg Except.ok h)
    else isFalse (fun hc => h (Except.ok.inj hc))

/-- Transcript segment type, from the `transcript_type` SQL enum and the
`TranscriptType` Python enum in `src/backend/db.py`. -/
inductive TranscriptType where
  | transcript
  | assistant
  | instruction
deriving DecidableEq, Repr

/-- One row of the `transcripts` table (`src/backend/db.py`, `create_tables`). -/
structure TranscriptRow where
  segment_id : Nat
  session_id : Nat
  session_speaker_id : Nat
  segment_index : ℚ
  segment_type : TranscriptType
  segment_content : List Char
  start_time : ℚ
  duration : ℚ
deriving DecidableEq, Repr

/-- The transcripts table together with the state of its SERIAL
`segment_id` generator. -/
structure Store where
  transcripts : List TranscriptRow
  next_segment_id : Nat
deriving DecidableEq, Repr

/-- Minimum of a list of rationals, `none` on the empty list: the value of
`SELECT segment_index ... ORDER BY segment_index ASC LIMIT 1`. -/
def minQ : List ℚ → Option ℚ
  | [] => none
  | x :: xs =>
    match minQ xs with
    | none => some x
    | some m => some (min x m)

/-- The query in `split_transcript` that fetches the next-higher
`segment_index` in the same session
(`SELECT segment_index FROM transcripts WHERE session_id = %s AND
segment_index > %s ORDER BY segment_index ASC LIMIT 1`). -/
def nextIndexAfter (rows : List TranscriptRow) (sid : Nat) (idx : ℚ) : Option ℚ :=
  minQ ((rows.filter
    (fun r => r.session_id == sid && decide (idx < r.segment_index))).map
    (fun r => r.segment_index))

/-- Embedding of `DatabaseManager.split_transcript`
(`src/backend/db.py`, lines 312-403). Returns the pair
`(original_segment_id, new_segment_id)` alongside the committed store. -/
def split_transcript (s : Store) (segment_id : Nat) (split_position : Nat)
    (new_segment_content : List Char) : Except String (Store × Nat × Nat) :=
  match s.transcripts.find? (fun r => r.segment_id == segment_id) with
  | none => .error "Segment not found"
  | some original =>
    let new_index : ℚ :=
      match nextIndexAfter s.transcripts original.session_id original.segment_index with
      | some nxt => (original.segment_index + nxt) / 2
      | none => original.segment_index + 1
    let original_length := original.segment_content.length
    let split_fraction : ℚ :=
      if 0 < original_length then (split_position : ℚ) / (original_length : ℚ) else 1/2
    let new_duration := original.duration * (1 - split_fraction)
    let updated_duration := original.duration * split_fraction
    let truncated_content := original.segment_content.take split_position
    let updated_rows := s.transcripts.map (fun r =>
      if r.segment_id == segment_id then
        { r with segment_content := truncated_content, duration := updated_duration }
      else r)
    let new_start_time := original.start_time + updated_duration
    let new_row : TranscriptRow :=
      { segment_id := s.next_segment_id
        session_id := original.session_id
        session_speaker_id := original.session_speaker_id
        segment_index := new_index
        segment_type := original.segment_type
        segment_content := new_segment_content
        start_time := new_start_time
        duration := new_duration }
    .ok ({ transcripts := updated_rows ++ [new_row],
           next_segment_id := s.next_segment_id + 1 },
         segment_id, s.next_segment_id)

/-- Ordering of transcript rows by their fractional sort key, the key
used by `segments.sort(key=lambda x: x["segment_index"])`. -/
def rowLE (a b : TranscriptRow) : Prop := a.segment_index ≤ b.segment_index

instance : DecidableRel rowLE := fun a b =>
  inferInstanceAs (Decidable (a.segment_index ≤ b.segment_index))

instance : IsTotal TranscriptRow rowLE := ⟨fun a b => le_total a.segment_index b.segment_index⟩

instance : IsTrans TranscriptRow rowLE := ⟨fun _ _ _ h h' => le_trans h h'⟩

/-- The fetch loop at the start of `merge_transcripts`: each id is looked
up in turn and the first missing id raises. -/
def fetchSegments (rows : List TranscriptRow) : List Nat → Except String (List TranscriptRow)
  | [] => .ok []
  | i :: is =>
    match rows.find? (fun r => r.segment_id == i) with
    | none => .error "Segment not found"
    | some seg =>
      match fetchSegments rows is with
      | .error e => .error e
      | .ok segs => .ok (seg :: segs)

/-- Embedding of `DatabaseManager.merge_transcripts`
(`src/backend/db.py`, lines 405-492). Python's stable `list.sort` is
modelled by `List.insertionSort` (also stable). The final
`UPDATE ... RETURNING` can fail in two ways. First, the new
`segment_index` is covered by the table's
`UNIQUE(session_id, segment_index)` constraint, so the update raises a
unique-violation when it moves the kept row onto a `(session_id,
segment_index)` pair held by another surviving row; a row never
conflicts with itself, so updating the key to its current value cannot
raise on any state the program can reach (`first` is the fetched copy of
the kept row, whose `segment_id` is the SERIAL primary key, and its
`session_id` is not changed by the update). Second, when the row to
update has been deleted, `fetchone()` returns `None` and the
`["segment_id"]` subscript raises; that is the final `.error` branch. -/
def merge_transcripts (s : Store) (segment_ids : List Nat) (keep_index : Option ℚ) :
    Except String (Store × Nat) :=
  if segment_ids.length < 2 then
    .error "At least two segment IDs must be provided to merge"
  else
    match fetchSegments s.transcripts segment_ids with
    | .error e => .error e
    | .ok fetched =>
      match List.insertionSort rowLE fetched with
      | [] => .error "Segment not found"
      | first :: rest =>
        if (first :: rest).all (fun r => r.session_id == first.session_id) then
          let keepIdx := keep_index.getD first.segment_index
          let combined_content := ((first :: rest).map (fun r => r.segment_content)).flatten
          let start_time := rest.foldl (fun acc r => min acc r.start_time) first.start_time
          let total_duration := (first :: rest).foldl (fun acc r => acc + r.duration) 0
          let session_speaker_id := first.session_speaker_id
          let afterDelete := rest.foldl
            (fun acc seg => acc.filter (fun r => !(r.segment_id == seg.segment_id)))
            s.transcripts
          if afterDelete.any (fun r => r.segment_id == first.segment_id) then
            if decide (keepIdx ≠ first.segment_index) &&
                afterDelete.any (fun r =>
                  !(r.segment_id == first.segment_id) &&
                  r.session_id == first.session_id &&
                  decide (r.segment_index = keepIdx)) then
              .error "duplicate key value violates unique constraint"
            else
              let updated := afterDelete.map (fun r =>
                if r.segment_id == first.segment_id then
                  { r with segment_content := combined_content
                           start_time := start_time
                           duration := total_duration
                           segment_index := keepIdx
                           session_speaker_id := session_speaker_id }
                else r)
              .ok ({ s with transcripts := updated }, first.segment_id)
          else
            .error "NoneType object is not subscriptable"
        else
          .error "All segments must belong to the same session"

/-- Commit-or-rollback semantics of `async with conn.transaction()`: an
operation that raises leaves the table exactly as it was. -/
def commitOr (s : Store) (r : Except String (Store × α)) : Store :=
  match r with
  | .ok x => x.1
  | .error _ => s

/-- One row of the `session_speakers` table (`src/backend/db.py`). -/
structure SessionSpeakerRow where
  id : Nat
  session_id : Nat
  speaker_id : Nat
  local_speaker_id : Int
deriving DecidableEq, Repr

/-- The `session_speakers` table with the state of its SERIAL `id`
generator. -/
structure SpeakerStore where
  session_speakers : List SessionSpeakerRow
  next_id : Nat
deriving DecidableEq, Repr

/-- SQL `COALESCE(MAX(xs), 0)`: the maximum of a non-empty list, `0` when
the list is empty. -/
def coalesceMax : List Int → Int
  | [] => 0
  | x :: xs => xs.foldl max x

/-- Embedding of `DatabaseManager.add_speaker_to_session`
(`src/backend/db.py`, lines 194-215). When no local id is passed, the
next one is `COALESCE(MAX(local_speaker_id), 0) + 1` over the session.
The `.error` branch is the `UNIQUE(session_id, local_speaker_id)`
constraint violation raised by the INSERT. -/
def add_speaker_to_session (s : SpeakerStore) (session_id : Nat) (speaker_id : Nat)
    (local_speaker_id : Option Int) : Except String (SpeakerStore × Nat) :=
  let lid : Int :=
    match local_speaker_id with
    | some l => l
    | none =>
      coalesceMax ((s.session_speakers.filter
        (fun r => r.session_id == session_id)).map (fun r => r.local_speaker_id)) + 1
  if s.session_speakers.any
      (fun r => r.session_id == session_id && r.local_speaker_id == lid) then
    .error "duplicate key value violates unique constraint"
  else
    .ok ({ session_speakers := s.session_speakers ++
             [{ id := s.next_id, session_id := session_id,
                speaker_id := speaker_id, local_speaker_id := lid }],
           next_id := s.next_id + 1 },
         s.next_id)

/-! The segment accumulator and dispatcher of `src/backend/app.py`
(`websocket_asr`). The per-segment intermediate results are Python
dictionaries whose keys are added and removed dynamically, so they are
embedded as association lists over a small dynamic value type; reading an
absent key is the `KeyError` of the source, surfaced through `Except`. -/

/-- A dynamic Python value as stored in the intermediate-result
dictionaries. -/
inductive PyVal where
  | int (n : Int)
  | str (s : String)
  | bool (b : Bool)
deriving DecidableEq, Repr

/-- Python truthiness of a `PyVal`, as used by `if ir[...] and ...`. -/
def PyVal.truthy : PyVal → Bool
  | .int n => n != 0
  | .str s => s != ""
  | .bool b => b

/-- A Python dictionary with string keys, in insertion order. -/
abbrev Dict := List (String × PyVal)

/-- Dictionary lookup, `d[k]` (a `none` result is a `KeyError`). -/
def dget (d : Dict) (k : String) : Option PyVal :=
  match d with
  | [] => none
  | (k', v) :: rest => if k' == k then some v else dget rest k

/-- Dictionary assignment `d[k] = v`: overwrites in place, or appends at
the end when the key is new (Python dicts keep insertion order). -/
def dset (d : Dict) (k : String) (v : PyVal) : Dict :=
  match d with
  | [] => [(k, v)]
  | (k', v') :: rest => if k' == k then (k', v) :: rest else (k', v') :: dset rest k v

/-- Dictionary deletion `del d[k]`. -/
def ddel (d : Dict) (k : String) : Dict :=
  match d with
  | [] => []
  | (k', v') :: rest => if k' == k then rest else (k', v') :: ddel rest k

/-- The default intermediate-result record produced by the `defaultdict`
factory in `websocket_asr`. -/
def default_ir : Dict :=
  [("speaker_id", .int (-1)),
   ("speaker_name", .str "Unknown Speaker"),
   ("segment_type", .str "transcript"),
   ("segment_content", .str ""),
   ("asr_finished", .bool false),
   ("sid_finished", .bool false),
   ("kws_finished", .bool false)]

/-- The accumulator map `intermediate_result`, a `defaultdict` keyed by
segment id, in insertion order. -/
abbrev AccMap := List (Nat × Dict)

/-- Read `intermediate_result[idx]` from the `defaultdict`: returns the
record and the (possibly extended) map. -/
def accGet (m : AccMap) (idx : Nat) : Dict × AccMap :=
  match m.lookup idx with
  | some d => (d, m)
  | none => (default_ir, m ++ [(idx, default_ir)])

/-- Store a record back under its segment id (in Python the record is
mutated in place; here the map entry is replaced). -/
def accSet (m : AccMap) (idx : Nat) (d : Dict) : AccMap :=
  match m with
  | [] => [(idx, d)]
  | (i, d') :: rest => if i == idx then (i, d) :: rest else (i, d') :: accSet rest idx d

/-- An entry of `result_queue`: the accumulator enqueues `(idx, record)`
pairs, `task_recv_agent` enqueues the agent's record dictionary as is. -/
inductive QueueEntry where
  | pair (idx : Nat) (record : Dict)
  | obj (record : Dict)
deriving DecidableEq, Repr

/-- State of one `websocket_asr` connection: the speaker-name registry,
the accumulator map and the emission queue. -/
structure AppState where
  name_2_id : List (String × Int)
  intermediate_result : AccMap
  result_queue : List QueueEntry
deriving DecidableEq, Repr

/-- The initial state of a fresh connection. -/
def initialAppState : AppState :=
  { name_2_id := [("Assistant", 0), ("Unknown Speaker", -1)],
    intermediate_result := [],
    result_queue := [] }

/-- Embedding of `queue_if_ready` (`src/backend/app.py`, lines 95-105).
The three readiness flags are read with Python's short-circuit `and`
(reading a deleted flag raises `KeyError`); when all are truthy the flags
are deleted from the record, the `(idx, record)` pair is enqueued, and
`del ir` deletes only the local name — the map entry stays. -/
def queue_if_ready (st : AppState) (idx : Nat) : Except String AppState :=
  let (ir, m) := accGet st.intermediate_result idx
  match dget ir "asr_finished" with
  | none => .error "KeyError: asr_finished"
  | some v1 =>
    if v1.truthy = false then .ok { st with intermediate_result := m }
    else
      match dget ir "sid_finished" with
      | none => .error "KeyError: sid_finished"
      | some v2 =>
        if v2.truthy = false then .ok { st with intermediate_result := m }
        else
          match dget ir "kws_finished" with
          | none => .error "KeyError: kws_finished"
          | some v3 =>
            if v3.truthy = false then .ok { st with intermediate_result := m }
            else
              let ir' := ddel (ddel (ddel ir "asr_finished") "sid_finished") "kws_finished"
              .ok { st with
                      intermediate_result := accSet m idx ir',
                      result_queue := st.result_queue ++ [.pair idx ir'] }

/-- One message arriving on one of the receive tasks of `websocket_asr`. -/
inductive Event where
  | asr (idx : Nat) (text : String) (finished : Bool)
  | sid (idx : Nat) (name : String) (finished : Bool)
  | kws (idx : Nat) (ty : String) (finished : Bool)
  | agent (record : Dict)
deriving DecidableEq, Repr

/-- One step of the receive tasks (`task_recv_asr`, `task_recv_sid`,
`task_recv_kws`, `task_recv_agent` in `src/backend/app.py`): merge the
message into the intermediate record and call `queue_if_ready`; the agent
task enqueues its record directly. -/
def appStep (st : AppState) : Event → Except String AppState
  | .asr idx text fin =>
    let (ir, m) := accGet st.intermediate_result idx
    match dget ir "segment_content" with
    | none => .error "KeyError: segment_content"
    | some v =>
      match v with
      | .str s =>
        let ir1 := dset ir "segment_content" (.str (s ++ text))
        let ir2 := dset ir1 "asr_finished" (.bool fin)
        queue_if_ready { st with intermediate_result := accSet m idx ir2 } idx
      | _ => .error "TypeError: can only concatenate str"
  | .sid idx name fin =>
    let (ir, m) := accGet st.intermediate_result idx
    let ir1 := dset ir "speaker_name" (.str name)
    let n2i :=
      if (st.name_2_id.lookup name).isSome then st.name_2_id
      else st.name_2_id ++ [(name, (st.name_2_id.length : Int))]
    let sidVal : Int := (n2i.lookup name).getD 0
    let ir2 := dset ir1 "speaker_id" (.int sidVal)
    let ir3 := dset ir2 "sid_finished" (.bool fin)
    queue_if_ready
      { st with name_2_id := n2i, intermediate_result := accSet m idx ir3 } idx
  | .kws idx ty fin =>
    let (ir, m) := accGet st.intermediate_result idx
    let ir1 := dset ir "segment_type" (.str ty)
    let ir2 := dset ir1 "kws_finished" (.bool fin)
    queue_if_ready { st with intermediate_result := accSet m idx ir2 } idx
  | .agent record =>
    .ok { st with result_queue := st.result_queue ++ [.obj record] }

/-- Run a sequence of received messages from a state, stopping at the
first raised exception. -/
def appRun (st : AppState) : List Event → Except String AppState
  | [] => .ok st
  | e :: es =>
    match appStep st e with
    | .error msg => .error msg
    | .ok st' => appRun st' es

/-- What `task_send_result` sends to the websocket before any exception:
either a record dictionary (`send_json(result)`) or a bare string (when
tuple-unpacking a two-key dictionary binds `result` to a key). -/
inductive Sent where
  | dict (d : Dict)
  | str (s : String)
deriving DecidableEq, Repr

/-- The externally visible effect of one iteration of the dispatch loop:
messages sent to the client websocket, records pushed to the agent input
socket, and the exception raised, if any. -/
structure DispatchEffects where
  sent_to_client : List Sent
  sent_to_agent : List Dict
  error : Option String
deriving DecidableEq, Repr

/-- Embedding of one iteration of `task_send_result`
(`src/backend/app.py`, lines 174-181), up to the database write (which is
wrapped in `try/except` and has no effect on the client or the agent).
`segment_id, result = await result_queue.get()` tuple-unpacks the popped
entry: a `(idx, record)` pair unpacks as expected, a dictionary unpacks
into its keys (a `ValueError` unless it has exactly two keys). The
instruction check then reads `result["type"]`. -/
def task_send_result_step (e : QueueEntry) : DispatchEffects :=
  match e with
  | .pair _ record =>
    match dget record "type" with
    | none =>
      { sent_to_client := [.dict record], sent_to_agent := [],
        error := some "KeyError: type" }
    | some v =>
      if v = .str "instruction" then
        { sent_to_client := [.dict record], sent_to_agent := [record], error := none }
      else
        { sent_to_client := [.dict record], sent_to_agent := [], error := none }
  | .obj record =>
    match record with
    | [(_, _), (k2, _)] =>
      { sent_to_client := [.str k2], sent_to_agent := [],
        error := some "TypeError: string indices must be integers" }
    | _ =>
      { sent_to_client := [], sent_to_agent := [],
        error := some "ValueError: not enough values to unpack" }

/-! Abbreviations naming the quantities computed inside `split_transcript`,
used to state its specification. -/

/-- The `split_ratio` computed by `split_transcript`:
`split_position / len(original_content)`, defaulting to `0.5` on empty
content. -/
def splitFraction (orig : TranscriptRow) (p : Nat) : ℚ :=
  if 0 < orig.segment_content.length then (p : ℚ) / (orig.segment_content.length : ℚ)
  else 1/2

/-- The `new_index` computed by `split_transcript`: the midpoint with the
next-higher index in the session, or `original_index + 1` when none. -/
def splitNewIndex (s : Store) (orig : TranscriptRow) : ℚ :=
  match nextIndexAfter s.transcripts orig.session_id orig.segment_index with
  | some nxt => (orig.segment_index + nxt) / 2
  | none => orig.segment_index + 1

/-- The row inserted by `split_transcript`. -/
def splitNewRow (s : Store) (orig : TranscriptRow) (p : Nat) (c : List Char) :
    TranscriptRow :=
  { segment_id := s.next_segment_id
    session_id := orig.session_id
    session_speaker_id := orig.session_speaker_id
    segment_index := splitNewIndex s orig
    segment_type := orig.segment_type
    segment_content := c
    start_time := orig.start_time + orig.duration * splitFraction orig p
    duration := orig.duration * (1 - splitFraction orig p) }

/-- The in-place `UPDATE` applied by `split_transcript` to the rows of
the table (only the row with the split id is modified). -/
def splitUpdateRow (orig : TranscriptRow) (p : Nat) (r : TranscriptRow) : TranscriptRow :=
  if r.segment_id == orig.segment_id then
    { r with segment_content := orig.segment_content.take p,
             duration := orig.duration * splitFraction orig p }
  else r

/-! Concrete inputs used to exercise the definitions. -/

/-- A segment "hello world" at index 1 of session 1. -/
def demoRow1 : TranscriptRow :=
  { segment_id := 1, session_id := 1, session_speaker_id := 1, segment_index := 1,
    segment_type := .transcript, segment_content := "hello world".toList,
    start_time := 0, duration := 11 }

/-- A segment at index 2 of session 1, the successor of `demoRow1`. -/
def demoRow2 : TranscriptRow :=
  { segment_id := 2, session_id := 1, session_speaker_id := 1, segment_index := 2,
    segment_type := .transcript, segment_content := "x".toList,
    start_time := 11, duration := 1 }

/-- A session with segments at indices [1.0, 2.0]. -/
def demoStore : Store := { transcripts := [demoRow1, demoRow2], next_segment_id := 3 }

/-- A segment belonging to a different session. -/
def demoRowOther : TranscriptRow :=
  { segment_id := 7, session_id := 2, session_speaker_id := 4, segment_index := 1,
    segment_type := .assistant, segment_content := "!!".toList,
    start_time := 5, duration := 2 }

/-- A store holding segments of two different sessions. -/
def demoStoreCross : Store :=
  { transcripts := [demoRow1, demoRowOther], next_segment_id := 8 }

/-- A store holding a single segment, for exercising a duplicated-id merge. -/
def demoStoreSingle : Store := { transcripts := [demoRow1], next_segment_id := 2 }

/-- A third segment of session 1 at index 3, left out of the merges. -/
def demoRow3 : TranscriptRow :=
  { segment_id := 3, session_id := 1, session_speaker_id := 1, segment_index := 3,
    segment_type := .transcript, segment_content := "y".toList,
    start_time := 12, duration := 1 }

/-- A session with segments at indices [1, 2, 3], for exercising a
keep-index collision with the surviving third row. -/
def demoStore3 : Store :=
  { transcripts := [demoRow1, demoRow2, demoRow3], next_segment_id := 4 }

/-- One finished partial result from each of the three annotators for
segment 0. -/
def c1_events : List Event :=
  [.asr 0 "hi" true, .sid 0 "Alice" true, .kws 0 "transcript" true]

/-- The record for segment 0 after all three partials above: the flags
have been stripped. -/
def c1_stripped : Dict :=
  [("speaker_id", .int 2),
   ("speaker_name", .str "Alice"),
   ("segment_type", .str "transcript"),
   ("segment_content", .str "hi")]

/-- A completed accumulator record whose `segment_type` is
`"instruction"`, as built by the accumulator (flags stripped). -/
def c2_instruction_record : Dict :=
  [("speaker_id", .int (-1)),
   ("speaker_name", .str "Unknown Speaker"),
   ("segment_type", .str "instruction"),
   ("segment_content", .str "turn it off")]

/-- The already-complete record pushed by the agent
(`AgentStream.run_offline` in `src/backend/agent.py`). -/
def c2_agent_record : Dict :=
  [("speaker_id", .int 0),
   ("speaker_name", .str "Assistant"),
   ("segment_type", .str "assistant"),
   ("segment_content", .str "done")]

/-! ### Helper lemmas about `minQ` and `nextIndexAfter` -/

theorem minQ_eq_none {l : List ℚ} : minQ l = none ↔ l = [] := by
  cases l with
  | nil => simp [minQ]
  | cons x xs =>
    simp only [minQ]
    cases minQ xs <;> simp

theorem minQ_mem {l : List ℚ} {v : ℚ} (h : minQ l = some v) : v ∈ l := by
  induction l generalizing v with
  | nil => simp [minQ] at h
  | cons x xs ih =>
    simp only [minQ] at h
    cases h' : minQ xs with
    | none => rw [h'] at h; simp at h; simp [h]
    | some m =>
      rw [h'] at h
      simp at h
      rcases min_choice x m with hm | hm
      · have hx : v = x := by rw [← h, hm]
        rw [hx]; exact List.mem_cons_self _ _
      · have hx : v = m := by rw [← h, hm]
        exact List.mem_cons_of_mem _ (hx ▸ ih h')

theorem minQ_le {l : List ℚ} {v : ℚ} (h : minQ l = some v) : ∀ x ∈ l, v ≤ x := by
  induction l generalizing v with
  | nil => simp
  | cons x xs ih =>
    simp only [minQ] at h
    cases h' : minQ xs with
    | none =>
      rw [h'] at h
      simp at h
      rw [minQ_eq_none] at h'
      subst h'
      simp [h]
    | some m =>
      rw [h'] at h
      simp at h
      intro y hy
      rcases List.mem_cons.1 hy with rfl | hy'
      · rw [← h]; exact min_le_left _ _
      · rw [← h]; exact le_trans (min_le_right _ _) (ih h' y hy')

theorem minQ_isSome_of_mem {l : List ℚ} {x : ℚ} (h : x ∈ l) : ∃ v, minQ l = some v := by
  cases l with
  | nil => simp at h
  | cons y ys =>
    simp only [minQ]
    cases minQ ys <;> exact ⟨_, rfl⟩

theorem nextIndexAfter_spec {rows : List TranscriptRow} {sid : Nat} {idx v : ℚ}
    (h : nextIndexAfter rows sid idx = some v) :
    (∃ r ∈ rows, r.session_id = sid ∧ idx < r.segment_index ∧ r.segment_index = v)
      ∧ ∀ r ∈ rows, r.session_id = sid → idx < r.segment_index → v ≤ r.segment_index := by
  unfold nextIndexAfter at h
  have hv := minQ_mem h
  have hle := minQ_le h
  constructor
  · rcases List.mem_map.1 hv with ⟨r, hr, hrv⟩
    have hmem := List.mem_filter.1 hr
    have hpred := hmem.2
    simp only [Bool.and_eq_true, beq_iff_eq, decide_eq_true_eq] at hpred
    exact ⟨r, hmem.1, hpred.1, hpred.2, hrv⟩
  · intro r hr hs hlt
    refine hle _ (List.mem_map_of_mem _ (List.mem_filter.2 ⟨hr, ?_⟩))
    simp [hs, hlt]

theorem nextIndexAfter_gt {rows : List TranscriptRow} {sid : Nat} {idx v : ℚ}
    (h : nextIndexAfter rows sid idx = some v) : idx < v := by
  rcases (nextIndexAfter_spec h).1 with ⟨r, _, _, hlt, hv⟩
  exact hv ▸ hlt

theorem nextIndexAfter_eq_none {rows : List TranscriptRow} {sid : Nat} {idx : ℚ}
    (h : nextIndexAfter rows sid idx = none) :
    ∀ r ∈ rows, r.session_id = sid → r.segment_index ≤ idx := by
  unfold nextIndexAfter at h
  rw [minQ_eq_none, List.map_eq_nil_iff, List.filter_eq_nil_iff] at h
  intro r hr hs
  by_contra hlt
  push_neg at hlt
  exact h r hr (by simp [hs, hlt])

theorem nextIndexAfter_isSome {rows : List TranscriptRow} {sid : Nat} {idx : ℚ}
    {r : TranscriptRow} (hr : r ∈ rows) (hs : r.session_id = sid)
    (hlt : idx < r.segment_index) :
    ∃ v, nextIndexAfter rows sid idx = some v := by
  unfold nextIndexAfter
  exact minQ_isSome_of_mem
    (List.mem_map_of_mem _ (List.mem_filter.2 ⟨hr, by simp [hs, hlt]⟩))

theorem splitNewIndex_gt (s : Store) (orig : TranscriptRow) :
    orig.segment_index < splitNewIndex s orig := by
  unfold splitNewIndex
  cases h : nextIndexAfter s.transcripts orig.session_id orig.segment_index with
  | none => linarith
  | some v =>
    have := nextIndexAfter_gt h
    linarith

/-! ### Specification of `split_transcript` on a found segment -/

theorem split_transcript_eq (s : Store) (sid p : Nat) (c : List Char)
    {orig : TranscriptRow}
    (hfind : s.transcripts.find? (fun r => r.segment_id == sid) = some orig) :
    split_transcript s sid p c = .ok
      ({ transcripts :=
           s.transcripts.map (fun r =>
             if r.segment_id == sid then
               { r with segment_content := orig.segment_content.take p,
                        duration := orig.duration * splitFraction orig p }
             else r)
           ++ [splitNewRow s orig p c],
         next_segment_id := s.next_segment_id + 1 },
       sid, s.next_segment_id) := by
  unfold split_transcript
  rw [hfind]
  rfl

/-! ### Claim C3 -/

/-- C3: for every existing segment, `split_transcript` assigns the new row
the index `(original_index + next_index) / 2` where `next_index` is the
least strictly larger index in the same session, or `original_index + 1`
when no larger index exists; the `(segment_id, segment_index)` pairs of
all pre-existing rows are unchanged, the new pair being appended. -/
theorem C3_split_assigns_midpoint_index
    (s : Store) (sid p : Nat) (c : List Char) (orig : TranscriptRow)
    (hfind : s.transcripts.find? (fun r => r.segment_id == sid) = some orig) :
    ∃ s' newRow,
      split_transcript s sid p c = .ok (s', sid, s.next_segment_id)
      ∧ newRow ∈ s'.transcripts ∧ newRow.segment_id = s.next_segment_id
      ∧ (∀ nxt : ℚ,
          (∃ r ∈ s.transcripts, r.session_id = orig.session_id ∧
            orig.segment_index < r.segment_index ∧ r.segment_index = nxt) →
          (∀ r ∈ s.transcripts, r.session_id = orig.session_id →
            orig.segment_index < r.segment_index → nxt ≤ r.segment_index) →
          newRow.segment_index = (orig.segment_index + nxt) / 2)
      ∧ ((∀ r ∈ s.transcripts, r.session_id = orig.session_id →
            r.segment_index ≤ orig.segment_index) →
          newRow.segment_index = orig.segment_index + 1)
      ∧ s'.transcripts.map (fun r => (r.segment_id, r.segment_index)) =
          s.transcripts.map (fun r => (r.segment_id, r.segment_index))
            ++ [(s.next_segment_id, newRow.segment_index)] := by
  refine ⟨_, splitNewRow s orig p c, split_transcript_eq s sid p c hfind,
    List.mem_append_right _ (List.mem_cons_self _ _), rfl, ?_, ?_, ?_⟩
  · intro nxt hex hmin
    obtain ⟨r, hr, hrs, hlt, hre⟩ := hex
    show (splitNewRow s orig p c).segment_index = _
    simp only [splitNewRow, splitNewIndex]
    obtain ⟨v, hv⟩ := nextIndexAfter_isSome hr hrs hlt
    rw [hv]
    obtain ⟨⟨r', hr', hrs', hlt', hre'⟩, hvle⟩ := nextIndexAfter_spec hv
    have h1 : nxt ≤ v := hre' ▸ hmin r' hr' hrs' hlt'
    have h2 : v ≤ nxt := hre ▸ hvle r hr hrs hlt
    rw [le_antisymm h2 h1]
  · intro hall
    show (splitNewRow s orig p c).segment_index = _
    simp only [splitNewRow, splitNewIndex]
    cases hv : nextIndexAfter s.transcripts orig.session_id orig.segment_index with
    | none => rfl
    | some v =>
      obtain ⟨⟨r, hr, hrs, hlt, _⟩, _⟩ := nextIndexAfter_spec hv
      exact absurd (hall r hr hrs) (not_le.2 hlt)
  · show (List.map _ _ ++ [splitNewRow s orig p c]).map _ = _
    rw [List.map_append, List.map_map]
    have hfun :
        ((fun r : TranscriptRow => (r.segment_id, r.segment_index)) ∘
          (fun r : TranscriptRow =>
            if r.segment_id == sid then
              { r with segment_content := orig.segment_content.take p,
                       duration := orig.duration * splitFraction orig p }
            else r)) =
        (fun r : TranscriptRow => (r.segment_id, r.segment_index)) := by
      funext r
      simp only [Function.comp_apply]
      split <;> rfl
    rw [hfun]
    rfl

/-- C3 witness: the spec scenario — a session with indices `[1, 2]`,
splitting the segment at index 1, position 3, content `"hello world"`,
leaves `"hel"` at index 1 and creates `"lo world"` at index `3/2`. -/
theorem C3_split_assigns_midpoint_index_witness :
    (demoStore.transcripts.find? (fun r => r.segment_id == 1) = some demoRow1)
    ∧ (∃ s' newRow,
        split_transcript demoStore 1 3 (String.toList "lo world") = .ok (s', 1, 3)
        ∧ newRow ∈ s'.transcripts ∧ newRow.segment_index = 3/2)
    ∧ ((split_transcript demoStore 1 3 (String.toList "lo world")).map
          (fun x => x.1.transcripts.map (fun r => r.segment_content))
        = .ok [String.toList "hel", String.toList "x", String.toList "lo world"])
    ∧ ((split_transcript demoStore 1 3 (String.toList "lo world")).map
          (fun x => x.1.transcripts.map (fun r => r.segment_index))
        = .ok [1, 2, (1 + 2) / 2]) := by
  refine ⟨by decide, ?_, by rfl, by rfl⟩
  obtain ⟨s', newRow, h1, h2, _, hmid, _, _⟩ :=
    C3_split_assigns_midpoint_index demoStore 1 3 (String.toList "lo world") demoRow1
      (by decide)
  refine ⟨s', newRow, h1, h2, ?_⟩
  have hx := hmid 2 ⟨demoRow2, by decide, by decide, by decide, by decide⟩ (by decide)
  rw [hx, show demoRow1.segment_index = (1 : ℚ) from rfl]
  norm_num

/-! ### Claim C4 -/

/-- C4: `split_transcript` never divides by zero: the split ratio is
`split_position / len(original_content)` on non-empty content and `1/2`
on empty content; the kept row's duration becomes `duration * ratio`, the
new row's duration `duration * (1 - ratio)`, and the new row starts at
`start_time + kept duration`. -/
theorem C4_split_duration_proportional
    (s : Store) (sid p : Nat) (c : List Char) (orig : TranscriptRow)
    (hfind : s.transcripts.find? (fun r => r.segment_id == sid) = some orig) :
    ∃ s' kept newRow,
      split_transcript s sid p c = .ok (s', sid, s.next_segment_id)
      ∧ kept ∈ s'.transcripts ∧ kept.segment_id = sid
      ∧ newRow ∈ s'.transcripts ∧ newRow.segment_id = s.next_segment_id
      ∧ kept.duration = orig.duration *
          (if 0 < orig.segment_content.length then
            (p : ℚ) / (orig.segment_content.length : ℚ) else 1/2)
      ∧ newRow.duration = orig.duration *
          (1 - (if 0 < orig.segment_content.length then
            (p : ℚ) / (orig.segment_content.length : ℚ) else 1/2))
      ∧ newRow.start_time = orig.start_time + kept.duration := by
  have hid := List.find?_some hfind
  have hmem : orig ∈ s.transcripts := List.mem_of_find?_eq_some hfind
  refine ⟨_,
    { orig with segment_content := orig.segment_content.take p,
                duration := orig.duration * splitFraction orig p },
    splitNewRow s orig p c,
    split_transcript_eq s sid p c hfind, ?_, ?_, ?_, rfl, rfl, rfl, rfl⟩
  · refine List.mem_append_left _ ?_
    have h2 := List.mem_map_of_mem (fun r : TranscriptRow =>
      if r.segment_id == sid then
        { r with segment_content := orig.segment_content.take p,
                 duration := orig.duration * splitFraction orig p }
      else r) hmem
    simp only [hid, if_true] at h2
    exact h2
  · exact beq_iff_eq.1 hid
  · exact List.mem_append_right _ (List.mem_cons_self _ _)

/-- C4 witness: a concrete split of `"hello world"` (length 11) at
position 3: ratio `3/11`, kept duration `3`, new duration `8`, new start
time `0 + 3`. -/
theorem C4_split_duration_proportional_witness :
    (demoStore.transcripts.find? (fun r => r.segment_id == 1) = some demoRow1)
    ∧ (∃ s' kept newRow,
        split_transcript demoStore 1 3 (String.toList "lo world") = .ok (s', 1, 3)
        ∧ kept ∈ s'.transcripts ∧ kept.segment_id = 1
        ∧ newRow ∈ s'.transcripts ∧ newRow.segment_id = 3
        ∧ kept.duration = demoRow1.duration *
            (if 0 < demoRow1.segment_content.length then
              (3 : ℚ) / (demoRow1.segment_content.length : ℚ) else 1/2)
        ∧ newRow.duration = demoRow1.duration *
            (1 - (if 0 < demoRow1.segment_content.length then
              (3 : ℚ) / (demoRow1.segment_content.length : ℚ) else 1/2))
        ∧ newRow.start_time = demoRow1.start_time + kept.duration) :=
  ⟨by decide,
   C4_split_duration_proportional demoStore 1 3 (String.toList "lo world") demoRow1
     (by decide)⟩

/-! ### Claim C10 -/

/-- C10: `split_transcript` leaves the original row's identity, index,
session, speaker binding, type and start time unchanged, modifying only
its content and duration, and the inserted row inherits the original's
session, speaker binding and type. -/
theorem C10_split_frame
    (s : Store) (sid p : Nat) (c : List Char) (orig : TranscriptRow)
    (hfind : s.transcripts.find? (fun r => r.segment_id == sid) = some orig) :
    ∃ s' kept newRow,
      split_transcript s sid p c = .ok (s', sid, s.next_segment_id)
      ∧ kept ∈ s'.transcripts
      ∧ kept.segment_id = orig.segment_id
      ∧ kept.segment_index = orig.segment_index
      ∧ kept.session_id = orig.session_id
      ∧ kept.session_speaker_id = orig.session_speaker_id
      ∧ kept.segment_type = orig.segment_type
      ∧ kept.start_time = orig.start_time
      ∧ kept.segment_content = orig.segment_content.take p
      ∧ newRow ∈ s'.transcripts
      ∧ newRow.segment_id = s.next_segment_id
      ∧ newRow.session_id = orig.session_id
      ∧ newRow.session_speaker_id = orig.session_speaker_id
      ∧ newRow.segment_type = orig.segment_type
      ∧ newRow.segment_content = c := by
  have hid := List.find?_some hfind
  have hmem : orig ∈ s.transcripts := List.mem_of_find?_eq_some hfind
  refine ⟨_,
    { orig with segment_content := orig.segment_content.take p,
                duration := orig.duration * splitFraction orig p },
    splitNewRow s orig p c,
    split_transcript_eq s sid p c hfind, ?_,
    rfl, rfl, rfl, rfl, rfl, rfl, rfl,
    List.mem_append_right _ (List.mem_cons_self _ _),
    rfl, rfl, rfl, rfl, rfl⟩
  refine List.mem_append_left _ ?_
  have h2 := List.mem_map_of_mem (fun r : TranscriptRow =>
    if r.segment_id == sid then
      { r with segment_content := orig.segment_content.take p,
               duration := orig.duration * splitFraction orig p }
    else r) hmem
  simp only [hid, if_true] at h2
  exact h2

/-! ### Claim C5: fast failure of invalid split and merge requests -/

theorem fetchSegments_error_of_missing {rows : List TranscriptRow} {ids : List Nat}
    {i : Nat} (hmem : i ∈ ids)
    (hnone : rows.find? (fun r => r.segment_id == i) = none) :
    ∃ e, fetchSegments rows ids = .error e := by
  induction ids with
  | nil => simp at hmem
  | cons j js ih =>
    rcases List.mem_cons.1 hmem with rfl | hj
    · exact ⟨"Segment not found", by simp [fetchSegments, hnone]⟩
    · cases hfind : rows.find? (fun r => r.segment_id == j) with
      | none => exact ⟨"Segment not found", by simp [fetchSegments, hfind]⟩
      | some seg =>
        obtain ⟨e, he⟩ := ih hj
        exact ⟨e, by simp [fetchSegments, hfind, he]⟩

/-- C5: `split_transcript` on an unknown segment id fails with an error;
`merge_transcripts` fails on fewer than two ids, on any unknown id, and
on segments from different sessions; in every failure case the store is
left unchanged (commit-or-rollback). -/
theorem C5_invalid_requests_fail_without_mutation :
    (∀ (s : Store) (sid p : Nat) (c : List Char),
        s.transcripts.find? (fun r => r.segment_id == sid) = none →
        ∃ e, split_transcript s sid p c = .error e
          ∧ commitOr s (split_transcript s sid p c) = s)
    ∧ (∀ (s : Store) (ids : List Nat) (k : Option ℚ),
        ids.length < 2 →
        ∃ e, merge_transcripts s ids k = .error e
          ∧ commitOr s (merge_transcripts s ids k) = s)
    ∧ (∀ (s : Store) (ids : List Nat) (k : Option ℚ) (i : Nat),
        i ∈ ids →
        s.transcripts.find? (fun r => r.segment_id == i) = none →
        ∃ e, merge_transcripts s ids k = .error e
          ∧ commitOr s (merge_transcripts s ids k) = s)
    ∧ (∀ (s : Store) (ids : List Nat) (k : Option ℚ) (segs : List TranscriptRow)
        (a b : TranscriptRow),
        fetchSegments s.transcripts ids = .ok segs →
        a ∈ segs → b ∈ segs → a.session_id ≠ b.session_id →
        ∃ e, merge_transcripts s ids k = .error e
          ∧ commitOr s (merge_transcripts s ids k) = s) := by
  refine ⟨?_, ?_, ?_, ?_⟩
  · intro s sid p c h
    have hm : split_transcript s sid p c = .error "Segment not found" := by
      unfold split_transcript
      rw [h]
    exact ⟨_, hm, by rw [hm]; rfl⟩
  · intro s ids k hlen
    have hm : merge_transcripts s ids k =
        .error "At least two segment IDs must be provided to merge" := by
      simp [merge_transcripts, hlen]
    exact ⟨_, hm, by rw [hm]; rfl⟩
  · intro s ids k i hi hnone
    by_cases hlen : ids.length < 2
    · have hm : merge_transcripts s ids k =
          .error "At least two segment IDs must be provided to merge" := by
        simp [merge_transcripts, hlen]
      exact ⟨_, hm, by rw [hm]; rfl⟩
    · obtain ⟨e, he⟩ := fetchSegments_error_of_missing hi hnone
      have hm : merge_transcripts s ids k = .error e := by
        simp [merge_transcripts, hlen, he]
      exact ⟨e, hm, by rw [hm]; rfl⟩
  · intro s ids k segs a b hfetch ha hb hab
    by_cases hlen : ids.length < 2
    · have hm : merge_transcripts s ids k =
          .error "At least two segment IDs must be provided to merge" := by
        simp [merge_transcripts, hlen]
      exact ⟨_, hm, by rw [hm]; rfl⟩
    · cases hsort : List.insertionSort rowLE segs with
      | nil =>
        have hp := List.perm_insertionSort rowLE segs
        rw [hsort] at hp
        exact absurd (hp.mem_iff.2 ha) (by simp)
      | cons first rest =>
        have hp := List.perm_insertionSort rowLE segs
        rw [hsort] at hp
        by_cases hall :
            ((first :: rest).all (fun r => r.session_id == first.session_id)) = true
        · exfalso
          have hall' := List.all_eq_true.1 hall
          have ha' : a.session_id = first.session_id := by
            have := hall' a (hp.mem_iff.2 ha)
            exact beq_iff_eq.1 (by simpa using this)
          have hb' : b.session_id = first.session_id := by
            have := hall' b (hp.mem_iff.2 hb)
            exact beq_iff_eq.1 (by simpa using this)
          exact hab (ha'.trans hb'.symm)
        · have hm : merge_transcripts s ids k =
              .error "All segments must belong to the same session" := by
            simp [merge_transcripts, hlen, hfetch, hsort, hall]
          exact ⟨_, hm, by rw [hm]; rfl⟩

/-- C5 witness: the four failure modes at concrete inputs — splitting a
missing segment, merging a single id, merging with an unknown id, and
merging across sessions. -/
theorem C5_invalid_requests_fail_without_mutation_witness :
    (∃ e, split_transcript demoStore 99 1 [] = .error e
       ∧ commitOr demoStore (split_transcript demoStore 99 1 []) = demoStore)
    ∧ (∃ e, merge_transcripts demoStore [1] none = .error e
       ∧ commitOr demoStore (merge_transcripts demoStore [1] none) = demoStore)
    ∧ (∃ e, merge_transcripts demoStore [1, 99] none = .error e
       ∧ commitOr demoStore (merge_transcripts demoStore [1, 99] none) = demoStore)
    ∧ (∃ e, merge_transcripts demoStoreCross [1, 7] none = .error e
       ∧ commitOr demoStoreCross (merge_transcripts demoStoreCross [1, 7] none)
           = demoStoreCross) := by
  obtain ⟨h1, h2, h3, h4⟩ := C5_invalid_requests_fail_without_mutation
  refine ⟨h1 demoStore 99 1 [] (by decide),
          h2 demoStore [1] none (by decide),
          h3 demoStore [1, 99] none 99 (by decide) (by decide),
          h4 demoStoreCross [1, 7] none [demoRow1, demoRowOther] demoRow1 demoRowOther
            (by decide) (by decide) (by decide) (by decide)⟩

/-! ### Helper lemmas for `merge_transcripts` -/

theorem fetchSegments_ok_forward {rows : List TranscriptRow} {ids : List Nat}
    {segs : List TranscriptRow} (h : fetchSegments rows ids = .ok segs) :
    (∀ i ∈ ids, (rows.find? (fun r => r.segment_id == i)).isSome)
      ∧ segs = ids.filterMap (fun i => rows.find? (fun r => r.segment_id == i)) := by
  induction ids generalizing segs with
  | nil =>
    simp only [fetchSegments, Except.ok.injEq] at h
    simp [← h]
  | cons i is ih =>
    simp only [fetchSegments] at h
    cases hfind : rows.find? (fun r => r.segment_id == i) with
    | none => rw [hfind] at h; exact absurd h (by simp)
    | some seg =>
      rw [hfind] at h
      cases hrec : fetchSegments rows is with
      | error e => rw [hrec] at h; exact absurd h (by simp)
      | ok segs' =>
        rw [hrec] at h
        obtain ⟨hall, hchar⟩ := ih hrec
        simp only [Except.ok.injEq] at h
        constructor
        · intro j hj
          rcases List.mem_cons.1 hj with rfl | hj'
          · simp [hfind]
          · exact hall j hj'
        · rw [← h, List.filterMap_cons, hfind, ← hchar]

theorem fetchSegments_ok_backward {rows : List TranscriptRow} {ids : List Nat}
    (hall : ∀ i ∈ ids, (rows.find? (fun r => r.segment_id == i)).isSome) :
    fetchSegments rows ids
      = .ok (ids.filterMap (fun i => rows.find? (fun r => r.segment_id == i))) := by
  induction ids with
  | nil => simp [fetchSegments]
  | cons i is ih =>
    obtain ⟨seg, hfind⟩ := Option.isSome_iff_exists.1 (hall i (List.mem_cons_self _ _))
    have hrec := ih (fun j hj => hall j (List.mem_cons_of_mem _ hj))
    simp [fetchSegments, hfind, hrec, List.filterMap_cons]

theorem fetchSegments_perm {rows : List TranscriptRow} {ids ids' : List Nat}
    {segs : List TranscriptRow} (hperm : List.Perm ids' ids)
    (h : fetchSegments rows ids = .ok segs) :
    ∃ segs', fetchSegments rows ids' = .ok segs' ∧ List.Perm segs' segs := by
  obtain ⟨hall, hchar⟩ := fetchSegments_ok_forward h
  refine ⟨_, fetchSegments_ok_backward (fun i hi => hall i (hperm.mem_iff.1 hi)), ?_⟩
  rw [hchar]
  exact hperm.filterMap _

theorem fetchSegments_mem {rows : List TranscriptRow} {ids : List Nat}
    {segs : List TranscriptRow} {a : TranscriptRow}
    (h : fetchSegments rows ids = .ok segs) (ha : a ∈ segs) :
    a ∈ rows ∧ a.segment_id ∈ ids := by
  obtain ⟨_, hchar⟩ := fetchSegments_ok_forward h
  rw [hchar] at ha
  obtain ⟨i, hi, hfind⟩ := List.mem_filterMap.1 ha
  have hid := List.find?_some hfind
  have : a.segment_id = i := beq_iff_eq.1 (by simpa using hid)
  exact ⟨List.mem_of_find?_eq_some hfind, this ▸ hi⟩

theorem count_le_count_filterMap {f : Nat → Option TranscriptRow} {n : Nat}
    {a : TranscriptRow} (hf : f n = some a) (ids : List Nat) :
    ids.count n ≤ (ids.filterMap f).count a := by
  induction ids with
  | nil => simp
  | cons i is ih =>
    by_cases hin : i = n
    · subst hin
      rw [List.filterMap_cons_some hf, List.count_cons_self, List.count_cons_self]
      omega
    · cases hfi : f i with
      | none =>
        rw [List.filterMap_cons_none hfi, List.count_cons_of_ne (fun hc => hin hc.symm)]
        exact ih
      | some b =>
        rw [List.filterMap_cons_some hfi,
          List.count_cons_of_ne (fun hc => hin hc.symm), List.count_cons]
        omega

theorem count_filterMap_le {f : Nat → Option TranscriptRow} {n : Nat}
    {a : TranscriptRow} (hinj : ∀ i, f i = some a → i = n) (ids : List Nat) :
    (ids.filterMap f).count a ≤ ids.count n := by
  induction ids with
  | nil => simp
  | cons i is ih =>
    cases hfi : f i with
    | none =>
      rw [List.filterMap_cons_none hfi, List.count_cons]
      omega
    | some b =>
      by_cases hba : b = a
      · subst hba
        have hin : i = n := hinj i hfi
        subst hin
        rw [List.filterMap_cons_some hfi, List.count_cons_self, List.count_cons_self]
        omega
      · rw [List.filterMap_cons_some hfi,
          List.count_cons_of_ne (fun hc => hba hc.symm), List.count_cons]
        omega

theorem fetchSegments_count_ge {rows : List TranscriptRow} {ids : List Nat}
    {segs : List TranscriptRow} {a : TranscriptRow}
    (h : fetchSegments rows ids = .ok segs)
    (hfind : rows.find? (fun r => r.segment_id == a.segment_id) = some a) :
    ids.count a.segment_id ≤ segs.count a := by
  obtain ⟨_, hchar⟩ := fetchSegments_ok_forward h
  rw [hchar]
  exact count_le_count_filterMap hfind ids

theorem fetchSegments_count_le {rows : List TranscriptRow} {ids : List Nat}
    {segs : List TranscriptRow} {a : TranscriptRow}
    (h : fetchSegments rows ids = .ok segs) :
    segs.count a ≤ ids.count a.segment_id := by
  obtain ⟨_, hchar⟩ := fetchSegments_ok_forward h
  rw [hchar]
  refine count_filterMap_le (fun i hfi => ?_) ids
  have := List.find?_some hfi
  exact (beq_iff_eq.1 (by simpa using this)).symm

/-- Two lists that are permutations of each other, both sorted under the
same reflexive-free relation, and whose members admit no nontrivial ties,
are equal. -/
theorem pairwise_perm_eq {α : Type u} {le : α → α → Prop} :
    ∀ {l₁ l₂ : List α}, List.Perm l₁ l₂ → List.Pairwise le l₁ → List.Pairwise le l₂ →
      (∀ a ∈ l₁, ∀ b ∈ l₁, le a b → le b a → a = b) → l₁ = l₂ := by
  intro l₁
  induction l₁ with
  | nil =>
    intro l₂ hp _ _ _
    exact hp.nil_eq
  | cons a t₁ ih =>
    intro l₂ hp h₁ h₂ hanti
    cases l₂ with
    | nil => exact absurd hp.eq_nil (by simp)
    | cons b t₂ =>
      have hbmem : b ∈ a :: t₁ := hp.mem_iff.2 (List.mem_cons_self b t₂)
      have hamem : a ∈ b :: t₂ := hp.mem_iff.1 (List.mem_cons_self a t₁)
      have hab : a = b := by
        rcases List.mem_cons.1 hbmem with hba | hbt
        · exact hba.symm
        · rcases List.mem_cons.1 hamem with hab' | hat
          · exact hab'
          · have hle1 : le a b := (List.pairwise_cons.1 h₁).1 b hbt
            have hle2 : le b a := (List.pairwise_cons.1 h₂).1 a hat
            exact hanti a (List.mem_cons_self _ _) b hbmem hle1 hle2
      subst hab
      have hp' : List.Perm t₁ t₂ := hp.cons_inv
      rw [ih hp' (List.pairwise_cons.1 h₁).2 (List.pairwise_cons.1 h₂).2
        (fun x hx y hy hxy hyx =>
          hanti x (List.mem_cons_of_mem _ hx) y (List.mem_cons_of_mem _ hy) hxy hyx)]

/-- Membership after the deletion loop of `merge_transcripts`: a row
survives iff it was present and its id differs from every deleted id. -/
theorem foldl_delete_mem {l : List TranscriptRow} {init : List TranscriptRow}
    {r : TranscriptRow} :
    r ∈ l.foldl
        (fun acc seg => acc.filter (fun t => !(t.segment_id == seg.segment_id))) init
      ↔ r ∈ init ∧ ∀ seg ∈ l, r.segment_id ≠ seg.segment_id := by
  induction l generalizing init with
  | nil => simp
  | cons seg l ih =>
    rw [List.foldl_cons, ih]
    constructor
    · rintro ⟨hr, hall⟩
      have hm := List.mem_filter.1 hr
      refine ⟨hm.1, ?_⟩
      intro sg hsg
      rcases List.mem_cons.1 hsg with rfl | hsg'
      · have hb := hm.2
        simp only [Bool.not_eq_true', beq_eq_false_iff_ne, ne_eq] at hb
        exact hb
      · exact hall sg hsg'
    · rintro ⟨hr, hall⟩
      refine ⟨List.mem_filter.2 ⟨hr, ?_⟩, fun sg hsg => hall sg (List.mem_cons_of_mem _ hsg)⟩
      simp [hall seg (List.mem_cons_self _ _)]

/-- Reduction of `merge_transcripts` on the success path. -/
theorem merge_transcripts_ok_spec
    (s : Store) (ids : List Nat) (k : Option ℚ)
    (segs first rest_arg : _) (hlen : ¬ ids.length < 2)
    (hfetch : fetchSegments s.transcripts ids = .ok segs)
    (hsort : List.insertionSort rowLE segs = first :: rest_arg)
    (hall : ((first :: rest_arg).all (fun r => r.session_id == first.session_id)) = true)
    (hany : ((rest_arg.foldl
        (fun acc seg => acc.filter (fun t => !(t.segment_id == seg.segment_id)))
        s.transcripts).any (fun r => r.segment_id == first.segment_id)) = true)
    (hkeepok : (decide (k.getD first.segment_index ≠ first.segment_index) &&
        ((rest_arg.foldl
          (fun acc seg => acc.filter (fun t => !(t.segment_id == seg.segment_id)))
          s.transcripts).any (fun r =>
            !(r.segment_id == first.segment_id) &&
            r.session_id == first.session_id &&
            decide (r.segment_index = k.getD first.segment_index)))) = false) :
    merge_transcripts s ids k = .ok
      ({ s with transcripts :=
          (rest_arg.foldl
            (fun acc seg => acc.filter (fun t => !(t.segment_id == seg.segment_id)))
            s.transcripts).map (fun r =>
              if r.segment_id == first.segment_id then
                { r with
                    segment_content :=
                      ((first :: rest_arg).map (fun t => t.segment_content)).flatten,
                    start_time :=
                      rest_arg.foldl (fun acc t => min acc t.start_time) first.start_time,
                    duration :=
                      (first :: rest_arg).foldl (fun acc t => acc + t.duration) 0,
                    segment_index := k.getD first.segment_index,
                    session_speaker_id := first.session_speaker_id }
              else r) },
        first.segment_id) := by
  unfold merge_transcripts
  rw [if_neg hlen, hfetch]
  simp only [hsort, hall, if_true, hany, hkeepok, Bool.false_eq_true, if_false]

/-- A keep index equal to a surviving same-session row's index is
rejected by the `UNIQUE(session_id, segment_index)` constraint: merging
segments 1 and 2 with `keep_index = 3` on a session holding indices
[1, 2, 3] raises and rolls back instead of committing a duplicate pair. -/
theorem merge_transcripts_conflicting_keep_index_raises :
    merge_transcripts demoStore3 [1, 2] (some 3)
      = .error "duplicate key value violates unique constraint"
    ∧ commitOr demoStore3 (merge_transcripts demoStore3 [1, 2] (some 3))
        = demoStore3 := by
  exact ⟨by decide, by decide⟩

/-! ### Claim C9: duplicated ids in a merge delete the kept row -/

/-- C9: in every `merge_transcripts` call whose id list repeats the
lowest-index segment's id, the two-ids precondition passes but the
deletion loop deletes the very row chosen to be kept, the in-place
`UPDATE ... RETURNING` then finds no row, and the call raises, leaving
the store unchanged by rollback instead of performing a merge. -/
theorem C9_duplicate_lowest_id_raises
    (s : Store) (ids : List Nat) (k : Option ℚ)
    (segs : List TranscriptRow) (a : TranscriptRow)
    (hfind : s.transcripts.find? (fun r => r.segment_id == a.segment_id) = some a)
    (hfetch : fetchSegments s.transcripts ids = .ok segs)
    (hdup : 2 ≤ ids.count a.segment_id)
    (hmin : ∀ r ∈ segs, r ≠ a → a.segment_index < r.segment_index) :
    ¬ ids.length < 2
    ∧ ∃ e, merge_transcripts s ids k = .error e
      ∧ commitOr s (merge_transcripts s ids k) = s := by
  have hlen : ¬ ids.length < 2 := by
    have := List.count_le_length a.segment_id ids
    omega
  have hcount : 2 ≤ segs.count a := le_trans hdup (fetchSegments_count_ge hfetch hfind)
  have hamem : a ∈ segs := List.count_pos_iff.1 (by omega)
  refine ⟨hlen, ?_⟩
  cases hsort : List.insertionSort rowLE segs with
  | nil =>
    have hpnil := List.perm_insertionSort rowLE segs
    rw [hsort] at hpnil
    exact absurd (hpnil.mem_iff.2 hamem) (by simp)
  | cons first rest =>
    have hp := List.perm_insertionSort rowLE segs
    rw [hsort] at hp
    have hpair : List.Pairwise rowLE (first :: rest) := by
      have := List.sorted_insertionSort rowLE segs
      rw [hsort] at this
      exact this
    have hfirst : first = a := by
      by_contra hne
      have hfmem : first ∈ segs := hp.mem_iff.1 (List.mem_cons_self _ _)
      have h1 : a.segment_index < first.segment_index := hmin first hfmem hne
      have hamem2 : a ∈ first :: rest := hp.mem_iff.2 hamem
      rcases List.mem_cons.1 hamem2 with heq | hat
      · exact hne heq.symm
      · have h2 : rowLE first a := (List.pairwise_cons.1 hpair).1 a hat
        exact absurd h2 (not_le.2 h1)
    subst hfirst
    have hcount2 : 2 ≤ (first :: rest).count first := by
      rw [hp.count_eq first]
      exact hcount
    have hrest : first ∈ rest := by
      rw [List.count_cons_self] at hcount2
      exact List.count_pos_iff.1 (by omega)
    by_cases hall : ((first :: rest).all (fun r => r.session_id == first.session_id)) = true
    · have hany : ¬ ((rest.foldl
          (fun acc seg => acc.filter (fun t => !(t.segment_id == seg.segment_id)))
          s.transcripts).any (fun r => r.segment_id == first.segment_id)) = true := by
        intro h
        obtain ⟨r, hr, hpr⟩ := List.any_eq_true.1 h
        have hno := (foldl_delete_mem.1 hr).2 first hrest
        exact hno (beq_iff_eq.1 hpr)
      have hm : merge_transcripts s ids k
          = .error "NoneType object is not subscriptable" := by
        unfold merge_transcripts
        rw [if_neg hlen, hfetch]
        simp only [hsort, hall, if_true]
        rw [if_neg hany]
      exact ⟨_, hm, by rw [hm]; rfl⟩
    · have hm : merge_transcripts s ids k
          = .error "All segments must belong to the same session" := by
        unfold merge_transcripts
        rw [if_neg hlen, hfetch]
        simp only [hsort]
        rw [if_neg hall]
      exact ⟨_, hm, by rw [hm]; rfl⟩

/-- C9 witness: merging `[1, 1]` on a store holding only segment 1
raises and leaves the store unchanged. -/
theorem C9_duplicate_lowest_id_raises_witness :
    ¬ ([1, 1] : List Nat).length < 2
    ∧ ∃ e, merge_transcripts demoStoreSingle [1, 1] none = .error e
      ∧ commitOr demoStoreSingle (merge_transcripts demoStoreSingle [1, 1] none)
          = demoStoreSingle :=
  C9_duplicate_lowest_id_raises demoStoreSingle [1, 1] none [demoRow1, demoRow1] demoRow1
    (by decide) (by decide) (by decide) (by decide)

/-! ### Claim C7: split followed by merge restores the segment -/

theorem splitUpdateRow_id (orig : TranscriptRow) (p : Nat) (r : TranscriptRow) :
    (splitUpdateRow orig p r).segment_id = r.segment_id := by
  unfold splitUpdateRow
  split <;> rfl

theorem splitUpdateRow_self (orig : TranscriptRow) (p : Nat) :
    splitUpdateRow orig p orig
      = { orig with segment_content := orig.segment_content.take p,
                    duration := orig.duration * splitFraction orig p } := by
  simp [splitUpdateRow]

/-- C7: splitting a segment at position `p` with the tail of its content
as the new content, then merging the two resulting ids, reconstitutes the
original content, the original duration (exactly, in the rational model),
and the original sort key. -/
theorem C7_split_merge_roundtrip
    (s : Store) (p : Nat) (orig : TranscriptRow)
    (hfind : s.transcripts.find? (fun r => r.segment_id == orig.segment_id) = some orig)
    (hfresh : ∀ r ∈ s.transcripts, r.segment_id ≠ s.next_segment_id) :
    ∃ s₁ s₂ merged,
      split_transcript s orig.segment_id p (orig.segment_content.drop p)
        = .ok (s₁, orig.segment_id, s.next_segment_id)
      ∧ merge_transcripts s₁ [orig.segment_id, s.next_segment_id] none
          = .ok (s₂, orig.segment_id)
      ∧ merged ∈ s₂.transcripts
      ∧ merged.segment_id = orig.segment_id
      ∧ merged.segment_content = orig.segment_content
      ∧ merged.duration = orig.duration
      ∧ merged.segment_index = orig.segment_index := by
  have hmem : orig ∈ s.transcripts := List.mem_of_find?_eq_some hfind
  have hsplit : split_transcript s orig.segment_id p (orig.segment_content.drop p)
      = .ok ({ transcripts :=
                 s.transcripts.map (splitUpdateRow orig p)
                   ++ [splitNewRow s orig p (orig.segment_content.drop p)],
               next_segment_id := s.next_segment_id + 1 },
             orig.segment_id, s.next_segment_id) :=
    split_transcript_eq s orig.segment_id p (orig.segment_content.drop p) hfind
  have hfind_kept :
      (s.transcripts.map (splitUpdateRow orig p)
          ++ [splitNewRow s orig p (orig.segment_content.drop p)]).find?
            (fun r => r.segment_id == orig.segment_id)
        = some (splitUpdateRow orig p orig) := by
    rw [List.find?_append]
    have hcomp : ((fun r : TranscriptRow => r.segment_id == orig.segment_id)
          ∘ splitUpdateRow orig p)
        = (fun r : TranscriptRow => r.segment_id == orig.segment_id) := by
      funext r
      simp [Function.comp_apply, splitUpdateRow_id]
    rw [List.find?_map, hcomp, hfind]
    rfl
  have hfind_new :
      (s.transcripts.map (splitUpdateRow orig p)
          ++ [splitNewRow s orig p (orig.segment_content.drop p)]).find?
            (fun r => r.segment_id == s.next_segment_id)
        = some (splitNewRow s orig p (orig.segment_content.drop p)) := by
    rw [List.find?_append]
    have hcomp : ((fun r : TranscriptRow => r.segment_id == s.next_segment_id)
          ∘ splitUpdateRow orig p)
        = (fun r : TranscriptRow => r.segment_id == s.next_segment_id) := by
      funext r
      simp [Function.comp_apply, splitUpdateRow_id]
    have hnone : s.transcripts.find?
        (fun r : TranscriptRow => r.segment_id == s.next_segment_id) = none := by
      rw [List.find?_eq_none]
      intro r hr
      simp [hfresh r hr]
    rw [List.find?_map, hcomp, hnone]
    simp [List.find?, splitNewRow]
  have hfetch₁ : fetchSegments
      (s.transcripts.map (splitUpdateRow orig p)
        ++ [splitNewRow s orig p (orig.segment_content.drop p)])
      [orig.segment_id, s.next_segment_id]
      = .ok [splitUpdateRow orig p orig,
             splitNewRow s orig p (orig.segment_content.drop p)] := by
    simp [fetchSegments, hfind_kept, hfind_new]
  have hle : rowLE (splitUpdateRow orig p orig)
      (splitNewRow s orig p (orig.segment_content.drop p)) := by
    rw [splitUpdateRow_self]
    exact le_of_lt (splitNewIndex_gt s orig)
  have hsort₁ : List.insertionSort rowLE
      [splitUpdateRow orig p orig, splitNewRow s orig p (orig.segment_content.drop p)]
      = [splitUpdateRow orig p orig,
         splitNewRow s orig p (orig.segment_content.drop p)] := by
    simp only [List.insertionSort, List.orderedInsert_nil, List.orderedInsert]
    rw [if_pos hle]
  have hall₁ : (([splitUpdateRow orig p orig,
        splitNewRow s orig p (orig.segment_content.drop p)]).all
          (fun r => r.session_id == (splitUpdateRow orig p orig).session_id)) = true := by
    simp [splitUpdateRow_self, splitNewRow]
  have hkept_in_afterDelete : splitUpdateRow orig p orig ∈
      ([splitNewRow s orig p (orig.segment_content.drop p)].foldl
        (fun acc seg => acc.filter (fun t => !(t.segment_id == seg.segment_id)))
        (s.transcripts.map (splitUpdateRow orig p)
          ++ [splitNewRow s orig p (orig.segment_content.drop p)])) := by
    refine foldl_delete_mem.2 ⟨?_, ?_⟩
    · exact List.mem_append_left _ (List.mem_map_of_mem _ hmem)
    · intro seg hseg
      rw [List.mem_singleton.1 hseg, splitUpdateRow_id]
      exact hfresh orig hmem
  have hany₁ : (([splitNewRow s orig p (orig.segment_content.drop p)].foldl
        (fun acc seg => acc.filter (fun t => !(t.segment_id == seg.segment_id)))
        (s.transcripts.map (splitUpdateRow orig p)
          ++ [splitNewRow s orig p (orig.segment_content.drop p)])).any
          (fun r => r.segment_id == (splitUpdateRow orig p orig).segment_id)) = true :=
    List.any_eq_true.2 ⟨splitUpdateRow orig p orig, hkept_in_afterDelete, by simp⟩
  have hmerge := merge_transcripts_ok_spec
    { transcripts :=
        s.transcripts.map (splitUpdateRow orig p)
          ++ [splitNewRow s orig p (orig.segment_content.drop p)],
      next_segment_id := s.next_segment_id + 1 }
    [orig.segment_id, s.next_segment_id] none
    [splitUpdateRow orig p orig, splitNewRow s orig p (orig.segment_content.drop p)]
    (splitUpdateRow orig p orig)
    [splitNewRow s orig p (orig.segment_content.drop p)]
    (by simp) hfetch₁ hsort₁ hall₁ hany₁
    (by rw [decide_eq_false (by simp : ¬ ((none : Option ℚ).getD
        (splitUpdateRow orig p orig).segment_index
          ≠ (splitUpdateRow orig p orig).segment_index)), Bool.false_and])
  rw [splitUpdateRow_id] at hmerge
  have hcond : ((splitUpdateRow orig p orig).segment_id == orig.segment_id) = true := by
    rw [splitUpdateRow_id]
    exact beq_self_eq_true _
  refine ⟨_, _, _, hsplit, hmerge, List.mem_map_of_mem _ hkept_in_afterDelete, ?_, ?_, ?_, ?_⟩
  · rw [if_pos hcond]
    exact splitUpdateRow_id orig p orig
  · rw [if_pos hcond]
    show (([splitUpdateRow orig p orig,
        splitNewRow s orig p (orig.segment_content.drop p)]).map
          (fun t => t.segment_content)).flatten = orig.segment_content
    rw [splitUpdateRow_self]
    show orig.segment_content.take p ++ (orig.segment_content.drop p ++ []) = _
    rw [List.append_nil, List.take_append_drop]
  · rw [if_pos hcond]
    show (([splitUpdateRow orig p orig,
        splitNewRow s orig p (orig.segment_content.drop p)]).foldl
          (fun acc t => acc + t.duration) 0) = orig.duration
    rw [splitUpdateRow_self]
    show 0 + orig.duration * splitFraction orig p
        + orig.duration * (1 - splitFraction orig p) = orig.duration
    ring
  · rw [if_pos hcond]
    show (none : Option ℚ).getD (splitUpdateRow orig p orig).segment_index
        = orig.segment_index
    rw [splitUpdateRow_self]
    rfl

/-- C7 witness: the round-trip at the demo store, splitting segment 1 at
position 3 and merging the two parts back. -/
theorem C7_split_merge_roundtrip_witness :
    ∃ s₁ s₂ merged,
      split_transcript demoStore demoRow1.segment_id 3
          (demoRow1.segment_content.drop 3)
        = .ok (s₁, demoRow1.segment_id, demoStore.next_segment_id)
      ∧ merge_transcripts s₁ [demoRow1.segment_id, demoStore.next_segment_id] none
          = .ok (s₂, demoRow1.segment_id)
      ∧ merged ∈ s₂.transcripts
      ∧ merged.segment_id = demoRow1.segment_id
      ∧ merged.segment_content = demoRow1.segment_content
      ∧ merged.duration = demoRow1.duration
      ∧ merged.segment_index = demoRow1.segment_index :=
  C7_split_merge_roundtrip demoStore 3 demoRow1 (by decide) (by decide)

/-! ### Claim C6: merge is determined by index order alone -/

theorem foldl_min_start_le (l : List TranscriptRow) (b : ℚ) :
    l.foldl (fun acc r => min acc r.start_time) b ≤ b := by
  induction l generalizing b with
  | nil => exact le_refl b
  | cons x xs ih =>
    rw [List.foldl_cons]
    exact le_trans (ih (min b x.start_time)) (min_le_left _ _)

theorem foldl_min_start_le_mem {l : List TranscriptRow} {r : TranscriptRow}
    (hr : r ∈ l) (b : ℚ) :
    l.foldl (fun acc t => min acc t.start_time) b ≤ r.start_time := by
  induction l generalizing b with
  | nil => simp at hr
  | cons x xs ih =>
    rw [List.foldl_cons]
    rcases List.mem_cons.1 hr with rfl | hr'
    · exact le_trans (foldl_min_start_le xs (min b r.start_time)) (min_le_right _ _)
    · exact ih hr' (min b x.start_time)

theorem foldl_min_start_mem (l : List TranscriptRow) (b : ℚ) :
    l.foldl (fun acc t => min acc t.start_time) b = b
      ∨ ∃ r ∈ l, l.foldl (fun acc t => min acc t.start_time) b = r.start_time := by
  induction l generalizing b with
  | nil => exact Or.inl rfl
  | cons x xs ih =>
    rw [List.foldl_cons]
    rcases ih (min b x.start_time) with h | ⟨r, hr, h⟩
    · rcases min_choice b x.start_time with hm | hm
      · exact Or.inl (h.trans hm)
      · exact Or.inr ⟨x, List.mem_cons_self _ _, h.trans hm⟩
    · exact Or.inr ⟨r, List.mem_cons_of_mem _ hr, h⟩

theorem foldl_add_duration (l : List TranscriptRow) (b : ℚ) :
    l.foldl (fun acc r => acc + r.duration) b
      = b + (l.map (fun r => r.duration)).sum := by
  induction l generalizing b with
  | nil => simp
  | cons x xs ih =>
    rw [List.foldl_cons, ih, List.map_cons, List.sum_cons]
    ring

/-- C6: a valid merge — at least two distinct existing ids of one
session, on a well-formed table, with a keep index that does not collide
with any surviving row of the session (else the `UNIQUE(session_id,
segment_index)` constraint rejects the update) — is determined by the
index-sorted fetched rows, so its result is invariant under permuting
the id list; the merged row keeps
the earliest start time among the inputs, the sum of their durations,
their contents concatenated in index order, the kept index (explicit
`keep_index` or the lowest input index), and the speaker binding and type
of the lowest-index input; all non-kept rows are deleted and unrelated
rows survive. -/
theorem C6_merge_order_invariant
    (s : Store) (ids ids' : List Nat) (k : Option ℚ)
    (segs : List TranscriptRow) (first : TranscriptRow) (rest : List TranscriptRow)
    (hwf_id : (s.transcripts.map (fun r => r.segment_id)).Nodup)
    (hwf_idx : (s.transcripts.map (fun r => (r.session_id, r.segment_index))).Nodup)
    (hids : ids.Nodup)
    (hperm : List.Perm ids' ids)
    (hlen : ¬ ids.length < 2)
    (hfetch : fetchSegments s.transcripts ids = .ok segs)
    (hsess : ∀ a ∈ segs, ∀ b ∈ segs, a.session_id = b.session_id)
    (hsort : List.insertionSort rowLE segs = first :: rest)
    (hkeep : ∀ r ∈ s.transcripts, r.session_id = first.session_id →
        r.segment_index = k.getD first.segment_index → r ∈ segs) :
    merge_transcripts s ids' k = merge_transcripts s ids k
    ∧ ∃ s', merge_transcripts s ids k = .ok (s', first.segment_id)
      ∧ List.Perm (first :: rest) segs
      ∧ List.Pairwise rowLE (first :: rest)
      ∧ (∀ r ∈ segs, first.segment_index ≤ r.segment_index)
      ∧ (∃ merged ∈ s'.transcripts,
          merged.segment_id = first.segment_id
          ∧ (∃ m ∈ segs, merged.start_time = m.start_time)
          ∧ (∀ r ∈ segs, merged.start_time ≤ r.start_time)
          ∧ merged.duration = (segs.map (fun r => r.duration)).sum
          ∧ merged.segment_content =
              ((first :: rest).map (fun r => r.segment_content)).flatten
          ∧ merged.segment_index = k.getD first.segment_index
          ∧ merged.session_speaker_id = first.session_speaker_id
          ∧ merged.segment_type = first.segment_type)
      ∧ (∀ r ∈ s'.transcripts,
          r.segment_id = first.segment_id
            ∨ (r ∈ s.transcripts ∧ ∀ m ∈ rest, r.segment_id ≠ m.segment_id))
      ∧ (∀ r ∈ s.transcripts, (∀ i ∈ ids, r.segment_id ≠ i) → r ∈ s'.transcripts) := by
  have hp : List.Perm (first :: rest) segs := by
    have h := List.perm_insertionSort rowLE segs
    rw [hsort] at h
    exact h
  have hpair : List.Pairwise rowLE (first :: rest) := by
    have h := List.sorted_insertionSort rowLE segs
    rw [hsort] at h
    exact h
  have hsegs_sub : ∀ r ∈ segs, r ∈ s.transcripts :=
    fun r hr => (fetchSegments_mem hfetch hr).1
  have hsegs_ids : ∀ r ∈ segs, r.segment_id ∈ ids :=
    fun r hr => (fetchSegments_mem hfetch hr).2
  have hfr_segs : first ∈ segs := hp.mem_iff.1 (List.mem_cons_self _ _)
  have hmin_idx : ∀ r ∈ segs, first.segment_index ≤ r.segment_index := by
    intro r hr
    rcases List.mem_cons.1 (hp.mem_iff.2 hr) with heq | hrt
    · rw [heq]
    · exact (List.pairwise_cons.1 hpair).1 r hrt
  have hfirst_not_rest : ∀ m ∈ rest, first.segment_id ≠ m.segment_id := by
    intro m hm heq
    have hfs : first ∈ s.transcripts := hsegs_sub first hfr_segs
    have hms : m ∈ s.transcripts :=
      hsegs_sub m (hp.mem_iff.1 (List.mem_cons_of_mem _ hm))
    have hfm : first = m := List.inj_on_of_nodup_map hwf_id hfs hms heq
    have hcount2 : 2 ≤ (first :: rest).count first := by
      rw [List.count_cons_self]
      have : 0 < rest.count first := List.count_pos_iff.2 (hfm ▸ hm)
      omega
    have hcs : 2 ≤ segs.count first := (hp.count_eq first) ▸ hcount2
    have hcid := fetchSegments_count_le (a := first) hfetch
    have hone := List.nodup_iff_count_le_one.1 hids first.segment_id
    omega
  have hall : ((first :: rest).all (fun r => r.session_id == first.session_id))
      = true := by
    refine List.all_eq_true.2 ?_
    intro r hr
    simpa using hsess r (hp.mem_iff.1 hr) first hfr_segs
  have hfirst_in_afterDelete : first ∈ rest.foldl
      (fun acc seg => acc.filter (fun t => !(t.segment_id == seg.segment_id)))
      s.transcripts :=
    foldl_delete_mem.2 ⟨hsegs_sub first hfr_segs, hfirst_not_rest⟩
  have hany : ((rest.foldl
      (fun acc seg => acc.filter (fun t => !(t.segment_id == seg.segment_id)))
      s.transcripts).any (fun r => r.segment_id == first.segment_id)) = true :=
    List.any_eq_true.2 ⟨first, hfirst_in_afterDelete, by simp⟩
  have hkeepok : (decide (k.getD first.segment_index ≠ first.segment_index) &&
      ((rest.foldl
        (fun acc seg => acc.filter (fun t => !(t.segment_id == seg.segment_id)))
        s.transcripts).any (fun r =>
          !(r.segment_id == first.segment_id) &&
          r.session_id == first.session_id &&
          decide (r.segment_index = k.getD first.segment_index)))) = false := by
    cases h2 : ((rest.foldl
        (fun acc seg => acc.filter (fun t => !(t.segment_id == seg.segment_id)))
        s.transcripts).any (fun r =>
          !(r.segment_id == first.segment_id) &&
          r.session_id == first.session_id &&
          decide (r.segment_index = k.getD first.segment_index))) with
    | false => exact Bool.and_false _
    | true =>
      exfalso
      obtain ⟨r, hr, hpr⟩ := List.any_eq_true.1 h2
      simp only [Bool.and_eq_true, Bool.not_eq_true', beq_eq_false_iff_ne, ne_eq,
        beq_iff_eq, decide_eq_true_eq] at hpr
      obtain ⟨⟨hrid, hrsess⟩, hridx⟩ := hpr
      have hchar := foldl_delete_mem.1 hr
      have hrsegs : r ∈ segs := hkeep r hchar.1 hrsess hridx
      rcases List.mem_cons.1 (hp.mem_iff.2 hrsegs) with heq | hrt
      · exact hrid (by rw [heq])
      · exact hchar.2 r hrt rfl
  have hmerge := merge_transcripts_ok_spec s ids k segs first rest
    hlen hfetch hsort hall hany hkeepok
  obtain ⟨segs', hfetch', hperm_segs⟩ := fetchSegments_perm hperm hfetch
  have hsort' : List.insertionSort rowLE segs' = first :: rest := by
    refine pairwise_perm_eq
      ((List.perm_insertionSort rowLE segs').trans (hperm_segs.trans hp.symm))
      (List.sorted_insertionSort rowLE segs') hpair ?_
    intro a ha b hb hab hba
    have ha' : a ∈ segs :=
      hperm_segs.mem_iff.1 ((List.perm_insertionSort rowLE segs').mem_iff.1 ha)
    have hb' : b ∈ segs :=
      hperm_segs.mem_iff.1 ((List.perm_insertionSort rowLE segs').mem_iff.1 hb)
    have hidx : a.segment_index = b.segment_index := le_antisymm hab hba
    have hpf : (a.session_id, a.segment_index) = (b.session_id, b.segment_index) := by
      rw [hsess a ha' b hb', hidx]
    exact List.inj_on_of_nodup_map hwf_idx (hsegs_sub a ha') (hsegs_sub b hb') hpf
  have hlen' : ¬ ids'.length < 2 := by
    rw [hperm.length_eq]
    exact hlen
  have hmerge' := merge_transcripts_ok_spec s ids' k segs' first rest
    hlen' hfetch' hsort' hall hany hkeepok
  have hcond : (first.segment_id == first.segment_id) = true := beq_self_eq_true _
  refine ⟨hmerge'.trans hmerge.symm, _, hmerge, hp, hpair, hmin_idx,
    ⟨_, List.mem_map_of_mem _ hfirst_in_afterDelete, ?_, ?_, ?_, ?_, ?_, ?_, ?_, ?_⟩,
    ?_, ?_⟩
  · rw [if_pos hcond]
  · rw [if_pos hcond]
    show ∃ m ∈ segs, (rest.foldl (fun acc t => min acc t.start_time) first.start_time)
        = m.start_time
    rcases foldl_min_start_mem rest first.start_time with h | ⟨r, hr, h⟩
    · exact ⟨first, hfr_segs, h⟩
    · exact ⟨r, hp.mem_iff.1 (List.mem_cons_of_mem _ hr), h⟩
  · rw [if_pos hcond]
    intro r hr
    show (rest.foldl (fun acc t => min acc t.start_time) first.start_time) ≤ r.start_time
    rcases List.mem_cons.1 (hp.mem_iff.2 hr) with heq | hrt
    · rw [heq]
      exact foldl_min_start_le rest first.start_time
    · exact foldl_min_start_le_mem hrt first.start_time
  · rw [if_pos hcond]
    show ((first :: rest).foldl (fun acc t => acc + t.duration) 0)
        = (segs.map (fun r => r.duration)).sum
    rw [foldl_add_duration, zero_add, (hp.map (fun r => r.duration)).sum_eq]
  · rw [if_pos hcond]
  · rw [if_pos hcond]
  · rw [if_pos hcond]
  · rw [if_pos hcond]
  · intro r hr
    obtain ⟨r₀, hr₀, hvr⟩ := List.mem_map.1 hr
    by_cases hc : (r₀.segment_id == first.segment_id) = true
    · rw [if_pos hc] at hvr
      left
      rw [← hvr]
      exact beq_iff_eq.1 hc
    · rw [if_neg hc] at hvr
      right
      rw [← hvr]
      exact ⟨(foldl_delete_mem.1 hr₀).1, (foldl_delete_mem.1 hr₀).2⟩
  · intro r hr hnot
    have hrd : r ∈ rest.foldl
        (fun acc seg => acc.filter (fun t => !(t.segment_id == seg.segment_id)))
        s.transcripts := by
      refine foldl_delete_mem.2 ⟨hr, ?_⟩
      intro m hm
      exact hnot m.segment_id
        (hsegs_ids m (hp.mem_iff.1 (List.mem_cons_of_mem _ hm)))
    have hne : ¬ (r.segment_id == first.segment_id) = true := by
      intro hc
      exact hnot first.segment_id (hsegs_ids first hfr_segs) (beq_iff_eq.1 hc)
    have hmm2 := List.mem_map_of_mem (fun t : TranscriptRow =>
      if t.segment_id == first.segment_id then
        { t with
            segment_content := ((first :: rest).map (fun q => q.segment_content)).flatten,
            start_time := rest.foldl (fun acc q => min acc q.start_time) first.start_time,
            duration := (first :: rest).foldl (fun acc q => acc + q.duration) 0,
            segment_index := k.getD first.segment_index,
            session_speaker_id := first.session_speaker_id }
      else t) hrd
    simpa only [if_neg hne] using hmm2

/-- C6 witness: merging `[2, 1]` equals merging `[1, 2]` on the demo
session, and the merge keeps segment 1 (the lowest index). -/
theorem C6_merge_order_invariant_witness :
    merge_transcripts demoStore [2, 1] none = merge_transcripts demoStore [1, 2] none
    ∧ ∃ s', merge_transcripts demoStore [1, 2] none = .ok (s', 1) := by
  obtain ⟨h1, s', h2, _⟩ := C6_merge_order_invariant demoStore [1, 2] [2, 1] none
    [demoRow1, demoRow2] demoRow1 [demoRow2]
    (by decide) (by decide) (by decide) (by decide) (by decide) (by decide)
    (by decide) (by decide) (by decide)
  exact ⟨h1, s', h2⟩

/-! ### Claim C8: `add_speaker_to_session` is not idempotent -/

theorem foldl_max_le_self (l : List Int) (b : Int) : b ≤ l.foldl max b := by
  induction l generalizing b with
  | nil => exact le_refl b
  | cons x xs ih => exact le_trans (le_max_left b x) (ih (max b x))

theorem mem_le_foldl_max {l : List Int} {x : Int} (h : x ∈ l) (b : Int) :
    x ≤ l.foldl max b := by
  induction l generalizing b with
  | nil => simp at h
  | cons y ys ih =>
    rcases List.mem_cons.1 h with rfl | hy
    · exact le_trans (le_max_right b x) (foldl_max_le_self ys (max b x))
    · exact ih hy (max b y)

theorem coalesceMax_ge {l : List Int} {x : Int} (h : x ∈ l) : x ≤ coalesceMax l := by
  cases l with
  | nil => simp at h
  | cons y ys =>
    rcases List.mem_cons.1 h with rfl | hy
    · exact foldl_max_le_self ys x
    · exact mem_le_foldl_max hy y

theorem foldl_max_mem (l : List Int) (b : Int) : l.foldl max b ∈ b :: l := by
  induction l generalizing b with
  | nil => simp
  | cons y ys ih =>
    rw [List.foldl_cons]
    have h := ih (max b y)
    rcases List.mem_cons.1 h with hh | hh
    · rcases max_choice b y with hm | hm
      · rw [hh, hm]
        exact List.mem_cons_self _ _
      · rw [hh, hm]
        exact List.mem_cons_of_mem _ (List.mem_cons_self _ _)
    · exact List.mem_cons_of_mem _ (List.mem_cons_of_mem _ hh)

theorem coalesceMax_mem_or_nil (l : List Int) : coalesceMax l ∈ l ∨ l = [] := by
  cases l with
  | nil => exact Or.inr rfl
  | cons x xs => exact Or.inl (foldl_max_mem xs x)

/-- C8 counterexample: binding speaker 5 into session 1 a second time
does not leave the relation unchanged: it inserts a fresh row with the
next ordinal and returns a fresh id, rather than returning the existing
binding. -/
theorem C8_not_idempotent_counterexample :
    add_speaker_to_session
        { session_speakers :=
            [{ id := 1, session_id := 1, speaker_id := 5, local_speaker_id := 1 }],
          next_id := 2 } 1 5 none
      = .ok ({ session_speakers :=
                 [{ id := 1, session_id := 1, speaker_id := 5, local_speaker_id := 1 },
                  { id := 2, session_id := 1, speaker_id := 5, local_speaker_id := 2 }],
               next_id := 3 }, 2)
    ∧ add_speaker_to_session
        { session_speakers :=
            [{ id := 1, session_id := 1, speaker_id := 5, local_speaker_id := 1 }],
          next_id := 2 } 1 5 none
      ≠ .ok ({ session_speakers :=
                 [{ id := 1, session_id := 1, speaker_id := 5, local_speaker_id := 1 }],
               next_id := 2 }, 1) := by
  exact ⟨by decide, by decide⟩

/-- C8 (amended): every call of `add_speaker_to_session` without a local
id succeeds and inserts a fresh binding row (so a repeated bind grows the
relation and returns a new id, not the existing binding); the
auto-assigned ordinal is strictly greater than every existing ordinal of
the session and equals an existing ordinal plus one, or `1` when the
session has no speakers yet. -/
theorem C8_add_speaker_appends_next_ordinal
    (s : SpeakerStore) (sid spk : Nat) :
    ∃ lid : Int,
      add_speaker_to_session s sid spk none
        = .ok ({ session_speakers := s.session_speakers ++
                   [{ id := s.next_id, session_id := sid, speaker_id := spk,
                      local_speaker_id := lid }],
                 next_id := s.next_id + 1 }, s.next_id)
      ∧ (∀ r ∈ s.session_speakers, r.session_id = sid → r.local_speaker_id < lid)
      ∧ ((∃ r ∈ s.session_speakers, r.session_id = sid ∧ lid = r.local_speaker_id + 1)
          ∨ ((∀ r ∈ s.session_speakers, r.session_id ≠ sid) ∧ lid = 1)) := by
  set locals := (s.session_speakers.filter
    (fun r => r.session_id == sid)).map (fun r => r.local_speaker_id) with hlocals
  refine ⟨coalesceMax locals + 1, ?_, ?_, ?_⟩
  · have hno : ¬ (s.session_speakers.any
        (fun r => r.session_id == sid && r.local_speaker_id == coalesceMax locals + 1))
          = true := by
      intro hany
      obtain ⟨r, hr, hpred⟩ := List.any_eq_true.1 hany
      simp only [Bool.and_eq_true, beq_iff_eq] at hpred
      have hmem : r.local_speaker_id ∈ locals := by
        rw [hlocals]
        exact List.mem_map_of_mem _ (List.mem_filter.2 ⟨hr, by simp [hpred.1]⟩)
      have := coalesceMax_ge hmem
      omega
    unfold add_speaker_to_session
    rw [if_neg hno]
  · intro r hr hs
    have hmem : r.local_speaker_id ∈ locals := by
      rw [hlocals]
      exact List.mem_map_of_mem _ (List.mem_filter.2 ⟨hr, by simp [hs]⟩)
    have := coalesceMax_ge hmem
    omega
  · rcases coalesceMax_mem_or_nil locals with hmem | hnil
    · rw [hlocals] at hmem
      obtain ⟨r, hr, hrv⟩ := List.mem_map.1 hmem
      have hfil := List.mem_filter.1 hr
      refine Or.inl ⟨r, hfil.1, beq_iff_eq.1 hfil.2, ?_⟩
      rw [hlocals, hrv]
    · refine Or.inr ⟨?_, ?_⟩
      · intro r hr hs
        rw [hlocals] at hnil
        rw [List.map_eq_nil_iff, List.filter_eq_nil_iff] at hnil
        exact hnil r hr (by simp [hs])
      · rw [hnil]
        rfl

/-! ### Claim C1: the accumulator leaves emitted records in its map -/

/-- C1: running one finished partial from each annotator for segment 0
emits exactly one record (only once all three flags are true), but the
record is not removed from the accumulator map: `del ir` only deletes the
local name, so the entry — now missing its readiness flags — stays, and a
later partial for the same segment raises a `KeyError` instead of being
accumulated. -/
theorem C1_emitted_record_stays_in_map :
    appRun initialAppState c1_events
      = .ok { name_2_id := [("Assistant", 0), ("Unknown Speaker", -1), ("Alice", 2)],
              intermediate_result := [(0, c1_stripped)],
              result_queue := [.pair 0 c1_stripped] }
    ∧ appRun initialAppState (c1_events ++ [.asr 0 " more" true])
      = .error "KeyError: sid_finished" := by
  exact ⟨by decide, by decide⟩

/-! ### Claim C2: the dispatcher never forwards instruction records -/

/-- C2: one iteration of `task_send_result` on an accumulator record with
`segment_type = "instruction"` sends it to the client but raises
`KeyError` on the `result["type"]` lookup instead of forwarding it to the
agent; an agent-enqueued record (a bare four-key dictionary, not an
`(idx, record)` pair) fails tuple unpacking and is not sent at all. -/
theorem C2_dispatch_mismatches :
    task_send_result_step (.pair 3 c2_instruction_record)
      = { sent_to_client := [.dict c2_instruction_record], sent_to_agent := [],
          error := some "KeyError: type" }
    ∧ dget c2_instruction_record "segment_type" = some (.str "instruction")
    ∧ task_send_result_step (.obj c2_agent_record)
      = { sent_to_client := [], sent_to_agent := [],
          error := some "ValueError: not enough values to unpack" } := by
  exact ⟨by decide, by decide, by decide⟩

/-- C10 witness: the frame conditions at the concrete demo split. -/
theorem C10_split_frame_witness :
    (demoStore.transcripts.find? (fun r => r.segment_id == 1) = some demoRow1)
    ∧ (∃ s' kept newRow,
        split_transcript demoStore 1 3 (String.toList "lo world") = .ok (s', 1, 3)
        ∧ kept ∈ s'.transcripts
        ∧ kept.segment_id = demoRow1.segment_id
        ∧ kept.segment_index = demoRow1.segment_index
        ∧ kept.session_id = demoRow1.session_id
        ∧ kept.session_speaker_id = demoRow1.session_speaker_id
        ∧ kept.segment_type = demoRow1.segment_type
        ∧ kept.start_time = demoRow1.start_time
        ∧ kept.segment_content = demoRow1.segment_content.take 3
        ∧ newRow ∈ s'.transcripts
        ∧ newRow.segment_id = 3
        ∧ newRow.session_id = demoRow1.session_id
        ∧ newRow.session_speaker_id = demoRow1.session_speaker_id
        ∧ newRow.segment_type = demoRow1.segment_type
        ∧ newRow.segment_content = String.toList "lo world") :=
  ⟨by decide,
   C10_split_frame demoStore 1 3 (String.toList "lo world") demoRow1 (by decide)⟩

end VoiceApi
